import Mathlib

/-!
Verification of the transaction-visualiser aggregation core: a shallow
embedding of the tree builder (`src/src/components/TreeGraph.tsx`), the
filter pipeline and flag toggle (the application component), and the flag
derivation, together with theorems settling the frozen claims.
-/

set_option maxRecDepth 10000

/-- A transaction record (`Transaction` in `src/data.ts`).  Amounts are
modelled as integers; the derived `parsedDate` field is omitted since no
claim concerns date parsing.  `isFlagged` is the normalised boolean the
application maintains. -/
structure Transaction where
  id : String
  date : String
  «from» : String
  «to» : String
  amount : Int
  type : String
  description : Option String
  isFlagged : Bool
deriving DecidableEq

/-- An account record (`Account` in `src/data.ts`). -/
structure Account where
  id : String
  name : String
deriving DecidableEq

/-- The tree-graph configuration (`config.treeGraph` in `src/data.ts`). -/
structure TreeConfig where
  maxDepth : Nat
  maxChildrenPerNode : Nat
deriving DecidableEq

/-- The concrete configuration values from `src/data.ts`. -/
def config : TreeConfig := { maxDepth := 8, maxChildrenPerNode := 12 }

/-- Direction tag of a tree node: `"root" | "in" | "out"` in the source;
`inn` stands for the string `"in"`. -/
inductive Direction where
  | root
  | inn
  | out
deriving DecidableEq

def defaultTransaction : Transaction :=
  { id := "", date := "", «from» := "", «to» := "", amount := 0, type := "",
    description := none, isFlagged := false }

/-- A node of the directional tree (`TreeNode` in `TreeGraph.tsx`). -/
inductive TreeNode where
  | node (id name : String) (direction : Direction) (value : Int)
      (children : List TreeNode) (parentId : Option String)
      (transactions : List Transaction)

def TreeNode.id : TreeNode → String
  | .node i _ _ _ _ _ _ => i

def TreeNode.name : TreeNode → String
  | .node _ n _ _ _ _ _ => n

def TreeNode.direction : TreeNode → Direction
  | .node _ _ d _ _ _ _ => d

def TreeNode.value : TreeNode → Int
  | .node _ _ _ v _ _ _ => v

def TreeNode.children : TreeNode → List TreeNode
  | .node _ _ _ _ cs _ _ => cs

def TreeNode.parentId : TreeNode → Option String
  | .node _ _ _ _ _ p _ => p

def TreeNode.transactions : TreeNode → List Transaction
  | .node _ _ _ _ _ _ txs => txs

def defaultTreeNode : TreeNode :=
  .node "" "" Direction.root 0 [] none []

/-- `accounts.find(a => a.id === accountId)?.name || accountId`:
the display-name lookup with JS falsy fallback on the empty string. -/
def displayName (accs : List Account) (accountId : String) : String :=
  match accs.find? (fun a => a.id = accountId) with
  | some a => if a.name = "" then accountId else a.name
  | none => accountId

/-- One aggregated edge entry of `aggregateEdges`. -/
structure AggEntry where
  id : String
  value : Int
  txCount : Nat
deriving DecidableEq

/-- The counterparty a transaction contributes to when aggregating at
`accountId` in the given direction (the branch structure of the loop body
of `aggregateEdges`). -/
def counterpartyOf (direction : Direction) (accountId : String)
    (tx : Transaction) : Option String :=
  if direction = Direction.out ∧ tx.«from» = accountId then some tx.«to»
  else if direction = Direction.inn ∧ tx.«to» = accountId then some tx.«from»
  else none

/-- Update the insertion-ordered aggregation map: existing keys accumulate
in place, new keys are appended (JS `Map` iteration-order semantics). -/
def upsertAgg (l : List AggEntry) (c : String) (amt : Int) : List AggEntry :=
  match l with
  | [] => [{ id := c, value := amt, txCount := 1 }]
  | e :: rest =>
    if e.id = c then { id := e.id, value := e.value + amt, txCount := e.txCount + 1 } :: rest
    else e :: upsertAgg rest c amt

/-- `aggregateEdges` from `TreeGraph.tsx`: aggregate transactions by
counterparty in a direction; entries come out in first-encountered order.
The JS truthiness guard `if (counterparty)` skips the empty string. -/
def aggregateEdges (transactions : List Transaction) (direction : Direction)
    (accountId : String) : List AggEntry :=
  transactions.foldl
    (fun m tx =>
      match counterpartyOf direction accountId tx with
      | some c => if c = "" then m else upsertAgg m c tx.amount
      | none => m)
    []

/-- `txs.reduce((sum, tx) => sum + tx.amount, 0)`. -/
def sumAmounts (txs : List Transaction) : Int :=
  txs.foldl (fun s tx => s + tx.amount) 0

/-- One step of the children-building pass of `buildDirectionalTree`:
`agg.slice(0, k).map(a => build(..., a.id, ..., newVisited, ...))` followed
by dropping `null` results, fused into a left fold that threads the shared
(mutated-in-place) `newVisited` set. `b` is the recursive builder applied
to a counterparty id and the current visited set. -/
def childStep (b : String → List String → Option TreeNode × List String)
    (acc : List TreeNode × List String) (e : AggEntry) :
    List TreeNode × List String :=
  match b e.id acc.2 with
  | (some c, vs) => (acc.1 ++ [c], vs)
  | (none, vs) => (acc.1, vs)

/-- JS truthiness of a `string | undefined` value: `undefined` and the
empty string are falsy.  `buildDirectionalTree` tests its `parentId`
argument this way (`if (parentId)` at line 60, `!parentId` at line 89). -/
def jsTruthy : Option String → Bool
  | some s => decide (s ≠ "")
  | none => false

/-- `buildDirectionalTree` from `TreeGraph.tsx`.  The JS `Set` is modelled
as a list used for membership; line 56's in-place `visited.add(accountId)`
is modelled by returning the updated set to the caller (the caller's set
object is what the JS code mutates), and `new Set(visited)` is the value
passed to the children fold.  `if (parentId)` and `!parentId` are JS
truthiness tests, so an empty-string parent id behaves like an absent one
(`jsTruthy`).  `fuel` is an artificial bound for termination; the depth
guard makes any fuel above `maxDepth + 1` exact. -/
def buildDirectionalTree (cfg : TreeConfig) (accs : List Account)
    (transactions : List Transaction) :
    Nat → String → Direction → List String → Nat → Option String →
    Option TreeNode × List String
  | 0, _, _, visited, _, _ => (none, visited)
  | Nat.succ fuel, accountId, direction, visited, depth, parentId =>
    if visited.contains accountId || decide (depth > cfg.maxDepth) then
      (none, visited)
    else
      let visited' := visited ++ [accountId]
      let nodeVT : Int × List Transaction :=
        if jsTruthy parentId then
          let pid := parentId.getD ""
          if direction = Direction.out then
            let txs := transactions.filter (fun tx => tx.«from» = pid ∧ tx.«to» = accountId)
            (sumAmounts txs, txs)
          else
            let txs := transactions.filter (fun tx => tx.«from» = accountId ∧ tx.«to» = pid)
            (sumAmounts txs, txs)
        else if depth = 0 then
          if direction = Direction.out then
            let txs := transactions.filter (fun tx => tx.«from» = accountId)
            (sumAmounts txs, txs)
          else
            let txs := transactions.filter (fun tx => tx.«to» = accountId)
            (sumAmounts txs, txs)
        else (0, [])
      let agg := aggregateEdges transactions direction accountId
      if agg.length = 0 && !jsTruthy parentId then (none, visited')
      else
        let folded :=
          (agg.take cfg.maxChildrenPerNode).foldl
            (childStep (fun aid vs =>
              buildDirectionalTree cfg accs transactions fuel aid direction vs
                (depth + 1) (some accountId)))
            ([], visited')
        (some (.node accountId (displayName accs accountId) direction nodeVT.1
          folded.1 parentId nodeVT.2), visited')

/-- Fuel that the depth guard can never exhaust from depth 0. -/
def treeFuel (cfg : TreeConfig) : Nat := cfg.maxDepth + 2

/-- The top-level call `buildDirectionalTree(transactions, accountId,
direction)` with the default arguments (`new Set()`, depth 0, no parent). -/
def buildDirectionalTreeTop (cfg : TreeConfig) (accs : List Account)
    (transactions : List Transaction) (accountId : String)
    (direction : Direction) : Option TreeNode :=
  (buildDirectionalTree cfg accs transactions (treeFuel cfg) accountId
    direction [] 0 none).1

/-- `buildFullTree` from `TreeGraph.tsx`: the synthetic root holding the
outgoing and incoming subtrees (absent subtrees are filtered out). -/
def buildFullTree (cfg : TreeConfig) (accs : List Account)
    (transactions : List Transaction) (accountId : String) : TreeNode :=
  let outTree := buildDirectionalTreeTop cfg accs transactions accountId Direction.out
  let inTree := buildDirectionalTreeTop cfg accs transactions accountId Direction.inn
  let allTxs := transactions.filter
    (fun tx => tx.«from» = accountId ∨ tx.«to» = accountId)
  .node accountId (displayName accs accountId) Direction.root 0
    ([outTree, inTree].filterMap id) none allTxs

/-- `u` is `t` itself or a node of the subtree hanging below `t`. -/
inductive Subnode : TreeNode → TreeNode → Prop where
  | refl (t : TreeNode) : Subnode t t
  | child {t c u : TreeNode} (hc : c ∈ t.children) (h : Subnode c u) :
      Subnode t u

/-- `IsLeafPath t p` holds when `p` is the id sequence of a complete
root-to-leaf path of the tree `t`. -/
inductive IsLeafPath : TreeNode → List String → Prop where
  | leaf {t : TreeNode} (h : t.children = []) : IsLeafPath t [t.id]
  | cons {t c : TreeNode} {p : List String} (hc : c ∈ t.children)
      (h : IsLeafPath c p) : IsLeafPath t (t.id :: p)

/-- Lexicographic comparison of char lists by code point, mirroring the
default JS string comparison used by `Array.prototype.sort`. -/
def charListLe : List Char → List Char → Bool
  | [], _ => true
  | _ :: _, [] => false
  | c :: cs, d :: ds =>
    if c.val < d.val then true
    else if d.val < c.val then false
    else charListLe cs ds

/-- JS `a <= b` on strings. -/
def jsStrLe (a b : String) : Bool := charListLe a.data b.data

/-- `[tx.from, tx.to].sort().join("|")`: the unordered-pair key used by the
pairwise-flow map. -/
def pairKey (a b : String) : String :=
  if jsStrLe a b then a ++ "|" ++ b else b ++ "|" ++ a

/-- `map.set(key, (map.get(key) || 0) + v)` on an insertion-ordered map. -/
def flowUpsert (m : List (String × Int)) (k : String) (v : Int) :
    List (String × Int) :=
  match m with
  | [] => [(k, v)]
  | e :: rest => if e.1 = k then (e.1, e.2 + v) :: rest else e :: flowUpsert rest k v

/-- The `pairFlows` memo of the application component: total absolute
volume per pair key, over the full (unfiltered) transaction list. -/
def pairFlows (transactions : List Transaction) : List (String × Int) :=
  transactions.foldl
    (fun m tx => flowUpsert m (pairKey tx.«from» tx.«to») |tx.amount|) []

/-- `map.get(key)` on the modelled map. -/
def lookupFlow (m : List (String × Int)) (k : String) : Option Int :=
  (m.find? (fun e => e.1 = k)).map (fun e => e.2)

/-- The `Filters` state of the application component: optional amount and
flow ranges. -/
structure Filters where
  amountRange : Option (Int × Int)
  flowRange : Option (Int × Int)
deriving DecidableEq

/-- The predicate of the `filteredTransactions` memo: early-return `false`
on a failing amount check, then on a failing pair-flow check. -/
def passesFilters (pf : List (String × Int)) (filters : Filters)
    (tx : Transaction) : Bool :=
  if (match filters.amountRange with
      | some r => decide (tx.amount < r.1 ∨ tx.amount > r.2)
      | none => false) then false
  else if (match filters.flowRange with
      | some r =>
        let pairFlow := (lookupFlow pf (pairKey tx.«from» tx.«to»)).getD 0
        decide (pairFlow < r.1 ∨ pairFlow > r.2)
      | none => false) then false
  else true

/-- The `filteredTransactions` memo: amount and pair-flow filters, with the
pair flows computed over the same full list. -/
def filteredTransactions (filters : Filters)
    (transactions : List Transaction) : List Transaction :=
  transactions.filter (passesFilters (pairFlows transactions) filters)

/-- The `activeFilteredTransactions` memo: keep transactions whose source
or destination is an active account. -/
def activeFilteredTransactions (activeAccounts : List String)
    (filtered : List Transaction) : List Transaction :=
  filtered.filter
    (fun tx => activeAccounts.contains tx.«from» || activeAccounts.contains tx.«to»)

/-- `handleToggleFlag` of the application component. -/
def handleToggleFlag (id : String) (transactions : List Transaction) :
    List Transaction :=
  transactions.map
    (fun tx => if tx.id = id then { tx with isFlagged := !tx.isFlagged } else tx)

/-- `transactions.some(tx => tx.isFlagged)`: the flag derivation applied to
every aggregate's stored transaction list. -/
def someFlagged (txs : List Transaction) : Bool :=
  txs.any (fun tx => tx.isFlagged)

/-- Follows the specification wording of claim C3: the sum of amounts of
the non-self transactions (source ≠ destination) whose source is the root. -/
def nonSelfSourceSum (txs : List Transaction) (root : String) : Int :=
  ((txs.filter (fun tx => tx.«from» = root ∧ tx.«to» ≠ root)).map
    (fun tx => tx.amount)).sum

/-- Follows the specification wording of claim C7: total absolute volume
moved between the unordered account pair `{a, b}`. -/
def unorderedPairVolume (txs : List Transaction) (a b : String) : Int :=
  ((txs.filter (fun u =>
      (u.«from» = a ∧ u.«to» = b) ∨ (u.«from» = b ∧ u.«to» = a))).map
    (fun u => |u.amount|)).sum

/-- Follows the specification wording of claim C7: the transactions whose
amount is within `[alo, ahi]` and whose unordered pair's total absolute
volume over the full list is within `[flo, fhi]`, in original order. -/
def rangesSpecFilter (txs : List Transaction) (alo ahi flo fhi : Int) :
    List Transaction :=
  txs.filter (fun tx => decide (alo ≤ tx.amount ∧ tx.amount ≤ ahi ∧
    flo ≤ unorderedPairVolume txs tx.«from» tx.«to» ∧
    unorderedPairVolume txs tx.«from» tx.«to» ≤ fhi))

/-- Total absolute volume accumulated under one pair key (what the code's
pair-flow map actually stores per key). -/
def pairKeyVolume (txs : List Transaction) (k : String) : Int :=
  ((txs.filter (fun u => pairKey u.«from» u.«to» = k)).map
    (fun u => |u.amount|)).sum

/-- Claim C1 as stated, at one node expansion: every kept counterparty's
aggregate value is at least every discarded counterparty's aggregate
value (`slice(0, maxChildrenPerNode)` keeps, the rest is discarded). -/
def keptDominateDiscarded (cfg : TreeConfig) (txs : List Transaction)
    (direction : Direction) (accountId : String) : Prop :=
  ∀ kept ∈ (aggregateEdges txs direction accountId).take cfg.maxChildrenPerNode,
    ∀ discarded ∈ (aggregateEdges txs direction accountId).drop cfg.maxChildrenPerNode,
      discarded.value ≤ kept.value

/-- Sample-transaction constructor for concrete instances. -/
def mkTx (i f t : String) (a : Int) : Transaction :=
  { id := i, date := "d", «from» := f, «to» := t, amount := a, type := "T",
    description := none, isFlagged := false }

/-- Twelve small counterparties first, then one large one: the large one
falls outside the first `maxChildrenPerNode` entries. -/
def c1txs : List Transaction :=
  [mkTx "s1" "R" "A1" 1, mkTx "s2" "R" "A2" 1, mkTx "s3" "R" "A3" 1,
   mkTx "s4" "R" "A4" 1, mkTx "s5" "R" "A5" 1, mkTx "s6" "R" "A6" 1,
   mkTx "s7" "R" "A7" 1, mkTx "s8" "R" "A8" 1, mkTx "s9" "R" "A9" 1,
   mkTx "s10" "R" "A10" 1, mkTx "s11" "R" "A11" 1, mkTx "s12" "R" "A12" 1,
   mkTx "s13" "R" "B" 100]

def c1sampleTree : TreeNode :=
  (buildDirectionalTreeTop config [] c1txs "R" Direction.out).getD defaultTreeNode

/-- `R → A`, `R → B`, `B → A`: `A` is expanded as a sibling before `B`. -/
def c2txs : List Transaction :=
  [mkTx "t1" "R" "A" 1, mkTx "t2" "R" "B" 1, mkTx "t3" "B" "A" 1]

def c2sampleTree : TreeNode :=
  (buildDirectionalTreeTop config [] c2txs "R" Direction.out).getD defaultTreeNode

/-- The `B`-labelled child of the sample tree over `c2txs`. -/
def c2TreeB : TreeNode := c2sampleTree.children.getD 1 defaultTreeNode

/-- A single self-transaction at the root. -/
def c3txs : List Transaction := [mkTx "t1" "R" "R" 100]

def c3sampleTree : TreeNode :=
  (buildDirectionalTreeTop config [] c3txs "R" Direction.out).getD defaultTreeNode

def c6tx : Transaction := mkTx "t1" "X" "Y" 100

def noFilters : Filters := { amountRange := none, flowRange := none }

/-- Two transactions over distinct unordered pairs whose sorted-joined
keys collide: `{x, y|z}` and `{x|y, z}` both key as `"x|y|z"`. -/
def c7txs : List Transaction :=
  [mkTx "t1" "x" "y|z" 5, mkTx "t2" "x|y" "z" 5]

def c7filters : Filters := { amountRange := some (0, 10), flowRange := some (10, 10) }

def c10txs : List Transaction :=
  [mkTx "t1" "A" "B" 10, mkTx "t2" "B" "C" 20]

theorem getD_handleToggleFlag (id : String) (txs : List Transaction) (i : Nat)
    (hi : i < txs.length) :
    (handleToggleFlag id txs).getD i defaultTransaction =
      (if (txs.getD i defaultTransaction).id = id then
        { txs.getD i defaultTransaction with
            isFlagged := !(txs.getD i defaultTransaction).isFlagged }
       else txs.getD i defaultTransaction) := by
  induction txs generalizing i with
  | nil => simp at hi
  | cons t ts ih =>
    cases i with
    | zero => simp [handleToggleFlag, List.getD]
    | succ j =>
      have hj : j < ts.length := by simpa using hi
      simpa [handleToggleFlag, List.getD] using ih j hj

/-- C8: on an empty filtered transaction set the builder returns, without
failing, a synthetic root whose child list is empty (no outgoing child and
no incoming child). -/
theorem buildFullTree_empty_input_degenerate (cfg : TreeConfig)
    (accs : List Account) (accountId : String) :
    buildFullTree cfg accs ([] : List Transaction) accountId =
      TreeNode.node accountId (displayName accs accountId) Direction.root 0
        [] none [] := rfl

/-- C9: the derived flagged boolean of an aggregate's stored transaction
list is true iff some constituent transaction is flagged, and it is false
on the empty list. -/
theorem someFlagged_iff (txs : List Transaction) :
    (someFlagged txs = true ↔ ∃ tx ∈ txs, tx.isFlagged = true) ∧
      someFlagged ([] : List Transaction) = false := by
  constructor
  · simp [someFlagged, List.any_eq_true]
  · rfl

/-- C6 (amended): an empty active-account set excludes every transaction —
the active-account dimension restricts to transactions touching the set,
which for the empty set is none. -/
theorem activeFiltered_empty_set_is_empty (filtered : List Transaction) :
    activeFilteredTransactions [] filtered = [] := by
  simp [activeFilteredTransactions]

/-- C6 counterexample: with no amount/flow filter and an empty
active-account set the pipeline output is empty, not the amount-and-flow
filtered list. -/
theorem c6_empty_active_not_identity :
    filteredTransactions noFilters [c6tx] = [c6tx] ∧
    activeFilteredTransactions [] (filteredTransactions noFilters [c6tx]) = [] ∧
    ([c6tx] : List Transaction) ≠ [] :=
  ⟨rfl, rfl, by decide⟩

/-- C10: the flag toggle preserves list length and order, flips exactly the
`isFlagged` field of the transactions whose id matches, leaves every other
field unchanged, and is the identity when no id matches. -/
theorem toggleFlag_frame (id : String) (txs : List Transaction) :
    (handleToggleFlag id txs).length = txs.length ∧
    (∀ i, i < txs.length →
      ((handleToggleFlag id txs).getD i defaultTransaction).id =
        (txs.getD i defaultTransaction).id ∧
      ((handleToggleFlag id txs).getD i defaultTransaction).date =
        (txs.getD i defaultTransaction).date ∧
      ((handleToggleFlag id txs).getD i defaultTransaction).«from» =
        (txs.getD i defaultTransaction).«from» ∧
      ((handleToggleFlag id txs).getD i defaultTransaction).«to» =
        (txs.getD i defaultTransaction).«to» ∧
      ((handleToggleFlag id txs).getD i defaultTransaction).amount =
        (txs.getD i defaultTransaction).amount ∧
      ((handleToggleFlag id txs).getD i defaultTransaction).type =
        (txs.getD i defaultTransaction).type ∧
      ((handleToggleFlag id txs).getD i defaultTransaction).description =
        (txs.getD i defaultTransaction).description ∧
      ((handleToggleFlag id txs).getD i defaultTransaction).isFlagged =
        (if (txs.getD i defaultTransaction).id = id then
          !(txs.getD i defaultTransaction).isFlagged
         else (txs.getD i defaultTransaction).isFlagged)) ∧
    ((∀ tx ∈ txs, tx.id ≠ id) → handleToggleFlag id txs = txs) := by
  refine ⟨by simp [handleToggleFlag], ?_, ?_⟩
  · intro i hi
    rw [getD_handleToggleFlag id txs i hi]
    by_cases h : (txs.getD i defaultTransaction).id = id
    · rw [if_pos h, if_pos h]
      exact ⟨rfl, rfl, rfl, rfl, rfl, rfl, rfl, rfl⟩
    · rw [if_neg h, if_neg h]
      exact ⟨rfl, rfl, rfl, rfl, rfl, rfl, rfl, rfl⟩
  · intro h
    induction txs with
    | nil => rfl
    | cons t ts ih =>
      have ht : t.id ≠ id := h t (by simp)
      have hts : ∀ tx ∈ ts, tx.id ≠ id := fun tx htx => h tx (by simp [htx])
      simp [handleToggleFlag, ht] at ih ⊢
      exact ih hts

theorem toggleFlag_frame_witness :
    (0 < c10txs.length ∧
      ((handleToggleFlag "t1" c10txs).getD 0 defaultTransaction).isFlagged =
        (if (c10txs.getD 0 defaultTransaction).id = "t1" then
          !(c10txs.getD 0 defaultTransaction).isFlagged
         else (c10txs.getD 0 defaultTransaction).isFlagged)) ∧
    ((∀ tx ∈ c10txs, tx.id ≠ "zz") ∧ handleToggleFlag "zz" c10txs = c10txs) := by
  constructor
  · exact ⟨by decide, ((toggleFlag_frame "t1" c10txs).2.1 0 (by decide)).2.2.2.2.2.2.2⟩
  · exact ⟨by decide, (toggleFlag_frame "zz" c10txs).2.2 (by decide)⟩

/-- C1 counterexample: with twelve value-1 counterparties encountered
before a value-100 one, the builder keeps the twelve and discards the
value-100 counterparty, so a discarded counterparty strictly outranks
every kept child. -/
theorem c1_unsorted_children_counterexample :
    buildDirectionalTreeTop config [] c1txs "R" Direction.out = some c1sampleTree ∧
    c1sampleTree.children.map TreeNode.id =
      ["A1", "A2", "A3", "A4", "A5", "A6", "A7", "A8", "A9", "A10", "A11", "A12"] ∧
    c1sampleTree.children.map TreeNode.value = [1, 1, 1, 1, 1, 1, 1, 1, 1, 1, 1, 1] ∧
    ((aggregateEdges c1txs Direction.out "R").drop config.maxChildrenPerNode).map
      (fun e => (e.id, e.value)) = [("B", 100)] ∧
    ¬ keptDominateDiscarded config c1txs Direction.out "R" := by
  refine ⟨rfl, rfl, rfl, rfl, ?_⟩
  unfold keptDominateDiscarded
  decide

/-- C2 counterexample: `B`'s subtree may not contain `A` although `A` is
not on the path `R → B` and `A` is a qualifying counterparty of `B`: the
sibling `A`, expanded first, was added to the visited set shared with `B`. -/
theorem c2_shared_sibling_visited_counterexample :
    buildDirectionalTreeTop config [] c2txs "R" Direction.out = some c2sampleTree ∧
    c2sampleTree.children.map TreeNode.id = ["A", "B"] ∧
    (c2sampleTree.children.getD 1 defaultTreeNode).children = [] ∧
    (aggregateEdges c2txs Direction.out "B").map (fun e => (e.id, e.value)) =
      [("A", 1)] ∧
    "A" ∉ (["R", "B"] : List String) :=
  ⟨rfl, rfl, rfl, rfl, by decide⟩

/-- C3 counterexample: a single self-transaction `R → R` of amount 100 is
included in the outgoing root aggregate, while the claim's non-self sum
is 0. -/
theorem c3_self_transaction_root_value_counterexample :
    buildDirectionalTreeTop config [] c3txs "R" Direction.out = some c3sampleTree ∧
    c3sampleTree.value = 100 ∧
    nonSelfSourceSum c3txs "R" = 0 ∧
    c3sampleTree.value ≠ nonSelfSourceSum c3txs "R" :=
  ⟨rfl, rfl, rfl, by decide⟩

/-- C7 counterexample: two transactions over distinct unordered pairs
share the joined key `"x|y|z"`, so their volumes are pooled: the code
keeps both under a flow range `[10, 10]` although each unordered pair's
own volume is 5. -/
theorem c7_pairkey_collision_counterexample :
    filteredTransactions c7filters c7txs = c7txs ∧
    rangesSpecFilter c7txs 0 10 10 10 = [] ∧
    c7txs ≠ [] :=
  ⟨rfl, rfl, by decide⟩

theorem lookupFlow_cons (e : String × Int) (rest : List (String × Int))
    (k : String) :
    lookupFlow (e :: rest) k = if e.1 = k then some e.2 else lookupFlow rest k := by
  by_cases h : e.1 = k
  · rw [if_pos h]
    unfold lookupFlow
    rw [@List.find?_cons_of_pos (String × Int) (fun x => decide (x.1 = k)) e rest (by simp [h])]
    rfl
  · rw [if_neg h]
    unfold lookupFlow
    rw [@List.find?_cons_of_neg (String × Int) (fun x => decide (x.1 = k)) e rest (by simp [h])]

theorem lookupFlow_flowUpsert (m : List (String × Int)) (k k' : String) (v : Int) :
    (lookupFlow (flowUpsert m k v) k').getD 0 =
      (lookupFlow m k').getD 0 + (if k' = k then v else 0) := by
  induction m with
  | nil =>
    rw [show flowUpsert [] k v = [(k, v)] from rfl, lookupFlow_cons]
    by_cases h : k = k'
    · rw [if_pos h, if_pos h.symm]
      simp [lookupFlow]
    · rw [if_neg h, if_neg (fun hc => h hc.symm)]
      simp [lookupFlow]
  | cons e rest ih =>
    by_cases hek : e.1 = k
    · rw [show flowUpsert (e :: rest) k v = (e.1, e.2 + v) :: rest from by
        simp [flowUpsert, hek]]
      rw [lookupFlow_cons, lookupFlow_cons]
      by_cases h' : e.1 = k'
      · rw [if_pos h', if_pos h']
        have hkk : k' = k := h'.symm.trans hek
        rw [if_pos hkk]
        simp
      · rw [if_neg h', if_neg h']
        have hkk : ¬ (k' = k) := fun hc => h' (hek.trans hc.symm)
        rw [if_neg hkk]
        simp
    · rw [show flowUpsert (e :: rest) k v = e :: flowUpsert rest k v from by
        simp [flowUpsert, hek]]
      rw [lookupFlow_cons, lookupFlow_cons]
      by_cases h' : e.1 = k'
      · rw [if_pos h', if_pos h']
        have hkk : ¬ (k' = k) := fun hc => hek (h'.trans hc)
        rw [if_neg hkk]
        simp
      · rw [if_neg h', if_neg h']
        exact ih

theorem pairKeyVolume_cons (tx : Transaction) (rest : List Transaction) (k : String) :
    pairKeyVolume (tx :: rest) k =
      (if pairKey tx.«from» tx.«to» = k then |tx.amount| else 0) +
        pairKeyVolume rest k := by
  by_cases h : pairKey tx.«from» tx.«to» = k <;>
    simp [pairKeyVolume, List.filter_cons, h]

theorem pairFlows_foldl_lookup (txs : List Transaction) (k : String) : ∀ m,
    (lookupFlow (txs.foldl
        (fun m tx => flowUpsert m (pairKey tx.«from» tx.«to») |tx.amount|) m) k).getD 0 =
      (lookupFlow m k).getD 0 + pairKeyVolume txs k := by
  induction txs with
  | nil => intro m; simp [pairKeyVolume]
  | cons tx rest ih =>
    intro m
    rw [List.foldl_cons, ih, lookupFlow_flowUpsert, pairKeyVolume_cons]
    by_cases h : pairKey tx.«from» tx.«to» = k
    · have h2 : k = pairKey tx.«from» tx.«to» := h.symm
      simp only [if_pos h, if_pos h2]
      omega
    · have h2 : ¬ (k = pairKey tx.«from» tx.«to») := fun hc => h hc.symm
      simp only [if_neg h, if_neg h2]
      omega

theorem pairFlows_value_eq (txs : List Transaction) (k : String) :
    (lookupFlow (pairFlows txs) k).getD 0 = pairKeyVolume txs k := by
  have h := pairFlows_foldl_lookup txs k []
  simpa [pairFlows, lookupFlow] using h

theorem passesFilters_characterization (txs : List Transaction)
    (alo ahi flo fhi : Int) (tx : Transaction) :
    passesFilters (pairFlows txs)
        { amountRange := some (alo, ahi), flowRange := some (flo, fhi) } tx =
      decide (alo ≤ tx.amount ∧ tx.amount ≤ ahi ∧
        flo ≤ pairKeyVolume txs (pairKey tx.«from» tx.«to») ∧
        pairKeyVolume txs (pairKey tx.«from» tx.«to») ≤ fhi) := by
  have hpf := pairFlows_value_eq txs (pairKey tx.«from» tx.«to»)
  by_cases h1 : tx.amount < alo ∨ tx.amount > ahi
  · have hL : passesFilters (pairFlows txs)
        { amountRange := some (alo, ahi), flowRange := some (flo, fhi) } tx = false := by
      simp [passesFilters, h1]
    rw [hL]
    symm
    rw [decide_eq_false_iff_not]
    rintro ⟨ha, hb, -, -⟩
    rcases h1 with h | h <;> omega
  · by_cases h2 : pairKeyVolume txs (pairKey tx.«from» tx.«to») < flo ∨
        pairKeyVolume txs (pairKey tx.«from» tx.«to») > fhi
    · have hL : passesFilters (pairFlows txs)
          { amountRange := some (alo, ahi), flowRange := some (flo, fhi) } tx = false := by
        simp [passesFilters, h1, hpf, h2]
      rw [hL]
      symm
      rw [decide_eq_false_iff_not]
      rintro ⟨-, -, hc, hd⟩
      rcases h2 with h | h <;> omega
    · have hL : passesFilters (pairFlows txs)
          { amountRange := some (alo, ahi), flowRange := some (flo, fhi) } tx = true := by
        simp [passesFilters, h1, hpf, h2]
      rw [hL]
      symm
      rw [decide_eq_true_eq]
      push_neg at h1 h2
      exact ⟨h1.1, h1.2, h2.1, h2.2⟩

/-- C7 (amended): with an amount range and a flow range active, the
pipeline returns exactly the transactions whose amount is within the
amount range (inclusive) and whose pair-key's total absolute volume over
the full unfiltered list is within the flow range (inclusive), where the
pair key is the sorted-and-joined id string; original order is preserved. -/
theorem filteredTransactions_characterization (txs : List Transaction)
    (alo ahi flo fhi : Int) :
    filteredTransactions
        { amountRange := some (alo, ahi), flowRange := some (flo, fhi) } txs =
      txs.filter (fun tx => decide (alo ≤ tx.amount ∧ tx.amount ≤ ahi ∧
        flo ≤ pairKeyVolume txs (pairKey tx.«from» tx.«to») ∧
        pairKeyVolume txs (pairKey tx.«from» tx.«to») ≤ fhi)) ∧
    (filteredTransactions
        { amountRange := some (alo, ahi), flowRange := some (flo, fhi) } txs).Sublist
      txs := by
  constructor
  · have hfun : passesFilters (pairFlows txs)
        { amountRange := some (alo, ahi), flowRange := some (flo, fhi) } =
        (fun tx => decide (alo ≤ tx.amount ∧ tx.amount ≤ ahi ∧
          flo ≤ pairKeyVolume txs (pairKey tx.«from» tx.«to») ∧
          pairKeyVolume txs (pairKey tx.«from» tx.«to») ≤ fhi)) :=
      funext (passesFilters_characterization txs alo ahi flo fhi)
    rw [filteredTransactions, hfun]
  · exact List.filter_sublist _

theorem sumAmounts_foldl (l : List Transaction) : ∀ init : Int,
    l.foldl (fun s tx => s + tx.amount) init =
      init + (l.map (fun tx => tx.amount)).sum := by
  induction l with
  | nil => intro init; simp
  | cons tx rest ih =>
    intro init
    rw [List.foldl_cons, ih]
    simp
    ring

/-- C3 (amended): the aggregate value at the root of the outgoing subtree
is the sum of amounts of all transactions whose source is the root —
self-transactions included. -/
theorem out_root_value (cfg : TreeConfig) (accs : List Account)
    (txs : List Transaction) (r : String) (t : TreeNode)
    (h : buildDirectionalTreeTop cfg accs txs r Direction.out = some t) :
    t.value = ((txs.filter (fun tx => tx.«from» = r)).map (fun tx => tx.amount)).sum := by
  unfold buildDirectionalTreeTop treeFuel at h
  rw [show cfg.maxDepth + 2 = Nat.succ (cfg.maxDepth + 1) from rfl] at h
  simp only [buildDirectionalTree] at h
  rw [if_neg (by simp)] at h
  split at h
  · simp at h
  · simp only [Option.some.injEq] at h
    subst h
    simp [TreeNode.value, sumAmounts, sumAmounts_foldl, jsTruthy]

theorem out_root_value_witness :
    buildDirectionalTreeTop config [] c3txs "R" Direction.out = some c3sampleTree ∧
    c3sampleTree.value =
      ((c3txs.filter (fun tx => tx.«from» = "R")).map (fun tx => tx.amount)).sum :=
  ⟨rfl, out_root_value config [] c3txs "R" c3sampleTree rfl⟩

theorem buildDirectionalTree_zero (cfg : TreeConfig) (accs : List Account)
    (txs : List Transaction) (aid : String) (dir : Direction)
    (vs : List String) (d : Nat) (pid : Option String) :
    buildDirectionalTree cfg accs txs 0 aid dir vs d pid = (none, vs) := rfl

/-- Structure of a successful builder call: the guards passed, the node
carries the requested account id, and its children are the shared-state
fold over the first `maxChildrenPerNode` aggregated counterparties. -/
theorem node_some_inv (cfg : TreeConfig) (accs : List Account)
    (txs : List Transaction) (f : Nat) (aid : String) (dir : Direction)
    (vs : List String) (d : Nat) (pid : Option String) (t : TreeNode)
    (w : List String)
    (h : buildDirectionalTree cfg accs txs (Nat.succ f) aid dir vs d pid = (some t, w)) :
    vs.contains aid = false ∧ d ≤ cfg.maxDepth ∧ t.id = aid ∧
    t.children = (((aggregateEdges txs dir aid).take cfg.maxChildrenPerNode).foldl
      (childStep (fun a2 vs2 =>
        buildDirectionalTree cfg accs txs f a2 dir vs2 (d + 1) (some aid)))
      ([], vs ++ [aid])).1 := by
  simp only [buildDirectionalTree] at h
  split at h
  · simp at h
  · next hg =>
    have hg' : vs.contains aid = false ∧ d ≤ cfg.maxDepth := by
      constructor
      · by_cases hc : vs.contains aid = true
        · exact absurd (by rw [hc]; rfl) hg
        · simpa using hc
      · by_cases hd : d ≤ cfg.maxDepth
        · exact hd
        · exact absurd (by simp [Nat.lt_of_not_le hd]) hg
    split at h
    · simp at h
    · simp only [Prod.mk.injEq, Option.some.injEq] at h
      obtain ⟨ht, -⟩ := h
      subst ht
      exact ⟨hg'.1, hg'.2, rfl, rfl⟩

/-- A child call under a truthy (non-empty) parent id either prunes and
leaves the shared set unchanged, or returns a node carrying the requested
id and appends exactly that id to the shared set. -/
theorem nodeVisited_char (cfg : TreeConfig) (accs : List Account)
    (txs : List Transaction) (f : Nat) (aid : String) (dir : Direction)
    (vs : List String) (d : Nat) (pacct : String) (hp : pacct ≠ "") :
    buildDirectionalTree cfg accs txs f aid dir vs d (some pacct) = (none, vs) ∨
    (∃ c, buildDirectionalTree cfg accs txs f aid dir vs d (some pacct) =
      (some c, vs ++ [aid]) ∧ c.id = aid) := by
  cases f with
  | zero => left; rfl
  | succ f =>
    simp only [buildDirectionalTree]
    split
    · left; rfl
    · rw [if_neg (by simp [jsTruthy, hp])]
      right
      exact ⟨_, rfl, rfl⟩

/-- Any child call (the parent id may be the JS-falsy empty string) either
leaves the shared set unchanged and returns no node, or appends its own
account id — possibly while still returning no node, which happens exactly
when the parent id is falsy and the aggregation is empty. -/
theorem nodeVisited_char3 (cfg : TreeConfig) (accs : List Account)
    (txs : List Transaction) (f : Nat) (aid : String) (dir : Direction)
    (vs : List String) (d : Nat) (pacct : String) :
    buildDirectionalTree cfg accs txs f aid dir vs d (some pacct) = (none, vs) ∨
    buildDirectionalTree cfg accs txs f aid dir vs d (some pacct) =
      (none, vs ++ [aid]) ∨
    (∃ c, buildDirectionalTree cfg accs txs f aid dir vs d (some pacct) =
      (some c, vs ++ [aid]) ∧ c.id = aid) := by
  cases f with
  | zero => left; rfl
  | succ f =>
    simp only [buildDirectionalTree]
    split
    · left; rfl
    · split
      · right; left; rfl
      · right; right; exact ⟨_, rfl, rfl⟩

theorem foldChildren_acc (b : String → List String → Option TreeNode × List String) :
    ∀ (entries : List AggEntry) (cs₀ : List TreeNode) (vs₀ : List String),
    entries.foldl (childStep b) (cs₀, vs₀) =
      (cs₀ ++ (entries.foldl (childStep b) ([], vs₀)).1,
        (entries.foldl (childStep b) ([], vs₀)).2) := by
  intro entries
  induction entries with
  | nil => intro cs₀ vs₀; simp
  | cons e rest ih =>
    intro cs₀ vs₀
    simp only [List.foldl_cons]
    cases hbe : b e.id vs₀ with
    | mk oc w =>
      cases oc with
      | none =>
        rw [show childStep b (cs₀, vs₀) e = (cs₀, w) from by simp [childStep, hbe],
          show childStep b ([], vs₀) e = ([], w) from by simp [childStep, hbe]]
        exact ih cs₀ w
      | some c =>
        rw [show childStep b (cs₀, vs₀) e = (cs₀ ++ [c], w) from by simp [childStep, hbe],
          show childStep b ([], vs₀) e = ([c], w) from by simp [childStep, hbe]]
        rw [ih (cs₀ ++ [c]) w, ih [c] w]
        simp

/-- With a well-behaved builder, the shared visited set coming out of the
children fold is the incoming set extended by exactly the ids of the
children that were actually built. -/
theorem foldChildren_thread (b : String → List String → Option TreeNode × List String)
    (hb : ∀ a w, b a w = (none, w) ∨
      (∃ c, b a w = (some c, w ++ [a]) ∧ c.id = a)) :
    ∀ (entries : List AggEntry) (vs₀ : List String),
    (entries.foldl (childStep b) ([], vs₀)).2 =
      vs₀ ++ ((entries.foldl (childStep b) ([], vs₀)).1).map TreeNode.id := by
  intro entries
  induction entries with
  | nil => intro vs₀; simp
  | cons e rest ih =>
    intro vs₀
    simp only [List.foldl_cons]
    rcases hb e.id vs₀ with hbe | ⟨c, hbe, hid⟩
    · rw [show childStep b ([], vs₀) e = ([], vs₀) from by simp [childStep, hbe]]
      exact ih vs₀
    · rw [show childStep b ([], vs₀) e = ([c], vs₀ ++ [e.id]) from by
        simp [childStep, hbe]]
      rw [foldChildren_acc b rest [c] (vs₀ ++ [e.id]), ih (vs₀ ++ [e.id])]
      simp [hid]

/-- Every child produced by the fold comes from a successful builder call
on one of the aggregated entries, with a visited set extending the
initial one. -/
theorem foldChildren_mem (b : String → List String → Option TreeNode × List String)
    (hb : ∀ a w, b a w = (none, w) ∨ b a w = (none, w ++ [a]) ∨
      (∃ c, b a w = (some c, w ++ [a]) ∧ c.id = a)) :
    ∀ (entries : List AggEntry) (vs₀ : List String) (c : TreeNode),
    c ∈ (entries.foldl (childStep b) ([], vs₀)).1 →
    ∃ e ∈ entries, ∃ vs₂, vs₀ ⊆ vs₂ ∧ (b e.id vs₂).1 = some c := by
  intro entries
  induction entries with
  | nil => intro vs₀ c hc; simp at hc
  | cons e rest ih =>
    intro vs₀ c hc
    simp only [List.foldl_cons] at hc
    rcases hb e.id vs₀ with hbe | hbe | ⟨c₀, hbe, hid⟩
    · rw [show childStep b ([], vs₀) e = ([], vs₀) from by simp [childStep, hbe]] at hc
      obtain ⟨e', he', vs₂, hsub, hsome⟩ := ih vs₀ c hc
      exact ⟨e', List.mem_cons_of_mem _ he', vs₂, hsub, hsome⟩
    · rw [show childStep b ([], vs₀) e = ([], vs₀ ++ [e.id]) from by
        simp [childStep, hbe]] at hc
      obtain ⟨e', he', vs₂, hsub, hsome⟩ := ih (vs₀ ++ [e.id]) c hc
      exact ⟨e', List.mem_cons_of_mem _ he', vs₂,
        (List.subset_append_left _ _).trans hsub, hsome⟩
    · rw [show childStep b ([], vs₀) e = ([c₀], vs₀ ++ [e.id]) from by
        simp [childStep, hbe]] at hc
      rw [foldChildren_acc b rest [c₀] (vs₀ ++ [e.id])] at hc
      rcases List.mem_append.mp hc with hc0 | hcr
      · have : c = c₀ := by simpa using hc0
        subst this
        exact ⟨e, List.mem_cons_self _ _, vs₀, List.Subset.refl _, by rw [hbe]⟩
      · obtain ⟨e', he', vs₂, hsub, hsome⟩ := ih (vs₀ ++ [e.id]) c hcr
        exact ⟨e', List.mem_cons_of_mem _ he', vs₂,
          (List.subset_append_left _ _).trans hsub, hsome⟩

/-- The fold produces at most one child per aggregated entry. -/
theorem foldChildren_length (b : String → List String → Option TreeNode × List String) :
    ∀ (entries : List AggEntry) (vs₀ : List String),
    (entries.foldl (childStep b) ([], vs₀)).1.length ≤ entries.length := by
  intro entries
  induction entries with
  | nil => intro vs₀; simp
  | cons e rest ih =>
    intro vs₀
    simp only [List.foldl_cons]
    cases hbe : b e.id vs₀ with
    | mk oc w =>
      cases oc with
      | none =>
        rw [show childStep b ([], vs₀) e = ([], w) from by simp [childStep, hbe]]
        exact (ih w).trans (Nat.le_succ _)
      | some c =>
        rw [show childStep b ([], vs₀) e = ([c], w) from by simp [childStep, hbe]]
        rw [foldChildren_acc b rest [c] w]
        simpa using ih w

/-- The ids of the children produced by the fold form a subsequence of the
ids of the aggregated entries, in order. -/
theorem foldChildren_sublist_ids (b : String → List String → Option TreeNode × List String)
    (hb : ∀ a w, b a w = (none, w) ∨ b a w = (none, w ++ [a]) ∨
      (∃ c, b a w = (some c, w ++ [a]) ∧ c.id = a)) :
    ∀ (entries : List AggEntry) (vs₀ : List String),
    ((entries.foldl (childStep b) ([], vs₀)).1.map TreeNode.id).Sublist
      (entries.map AggEntry.id) := by
  intro entries
  induction entries with
  | nil => intro vs₀; simp
  | cons e rest ih =>
    intro vs₀
    simp only [List.foldl_cons, List.map_cons]
    rcases hb e.id vs₀ with hbe | hbe | ⟨c, hbe, hid⟩
    · rw [show childStep b ([], vs₀) e = ([], vs₀) from by simp [childStep, hbe]]
      exact (ih vs₀).cons _
    · rw [show childStep b ([], vs₀) e = ([], vs₀ ++ [e.id]) from by
        simp [childStep, hbe]]
      exact (ih (vs₀ ++ [e.id])).cons _
    · rw [show childStep b ([], vs₀) e = ([c], vs₀ ++ [e.id]) from by
        simp [childStep, hbe]]
      rw [foldChildren_acc b rest [c] (vs₀ ++ [e.id])]
      simpa [hid] using (ih (vs₀ ++ [e.id])).cons₂ e.id

/-- Along any path of a built tree, ids never repeat and never hit the
incoming visited set. -/
theorem path_nodup_inv (cfg : TreeConfig) (accs : List Account)
    (txs : List Transaction) :
    ∀ (fuel : Nat) (aid : String) (dir : Direction) (vs : List String)
      (d : Nat) (pid : Option String) (t : TreeNode) (w : List String),
    buildDirectionalTree cfg accs txs fuel aid dir vs d pid = (some t, w) →
    ∀ p, IsLeafPath t p → p.Nodup ∧ ∀ x ∈ p, x ∉ vs := by
  intro fuel
  induction fuel with
  | zero =>
    intro aid dir vs d pid t w h
    rw [buildDirectionalTree_zero] at h
    simp at h
  | succ f ih =>
    intro aid dir vs d pid t w h
    obtain ⟨hnv, hd, hid, hch⟩ := node_some_inv cfg accs txs f aid dir vs d pid t w h
    have hnv' : aid ∉ vs := by simpa using hnv
    have hb := fun a2 vs2 => nodeVisited_char3 cfg accs txs f a2 dir vs2 (d + 1) aid
    intro p hp
    cases hp with
    | leaf hleaf =>
      refine ⟨List.nodup_singleton _, ?_⟩
      intro x hx
      have hx' : x = t.id := by simpa using hx
      rw [hx', hid]
      exact hnv'
    | cons hc hcp =>
      rename_i c p'
      rw [hch] at hc
      obtain ⟨e, he, vs₂, hsub, hsome⟩ := foldChildren_mem _ hb _ _ _ hc
      rcases hb e.id vs₂ with hbe | hbe | ⟨c₀, hbe, -⟩
      · rw [hbe] at hsome
        simp at hsome
      · rw [hbe] at hsome
        simp at hsome
      · rw [hbe] at hsome
        have hcc : c₀ = c := by simpa using hsome
        subst hcc
        have hres := ih e.id dir vs₂ (d + 1) (some aid) c₀ (vs₂ ++ [e.id]) hbe p' hcp
        have haidvs₂ : aid ∈ vs₂ := hsub (by simp)
        refine ⟨?_, ?_⟩
        · rw [List.nodup_cons]
          refine ⟨?_, hres.1⟩
          intro hmem
          exact hres.2 t.id hmem (hid ▸ haidvs₂)
        · intro x hx
          rcases List.mem_cons.mp hx with hx | hx
          · rw [hx, hid]
            exact hnv'
          · intro hmemvs
            exact hres.2 x hx (hsub (List.mem_append_left _ hmemvs))

/-- Every node of a built tree has at most `maxChildrenPerNode` children,
and every path started at depth `d` stays within the depth bound. -/
theorem bounds_inv (cfg : TreeConfig) (accs : List Account)
    (txs : List Transaction) :
    ∀ (fuel : Nat) (aid : String) (dir : Direction) (vs : List String)
      (d : Nat) (pid : Option String) (t : TreeNode) (w : List String),
    buildDirectionalTree cfg accs txs fuel aid dir vs d pid = (some t, w) →
    (∀ u, Subnode t u → u.children.length ≤ cfg.maxChildrenPerNode) ∧
    (∀ p, IsLeafPath t p → p.length + d ≤ cfg.maxDepth + 1) := by
  intro fuel
  induction fuel with
  | zero =>
    intro aid dir vs d pid t w h
    rw [buildDirectionalTree_zero] at h
    simp at h
  | succ f ih =>
    intro aid dir vs d pid t w h
    obtain ⟨hnv, hd, hid, hch⟩ := node_some_inv cfg accs txs f aid dir vs d pid t w h
    have hb := fun a2 vs2 => nodeVisited_char3 cfg accs txs f a2 dir vs2 (d + 1) aid
    constructor
    · intro u hsub
      cases hsub with
      | refl =>
        rw [hch]
        refine (foldChildren_length _ _ _).trans ?_
        rw [List.length_take]
        omega
      | child hc hsub' =>
        rename_i c
        rw [hch] at hc
        obtain ⟨e, he, vs₂, hsub₂, hsome⟩ := foldChildren_mem _ hb _ _ _ hc
        rcases hb e.id vs₂ with hbe | hbe | ⟨c₀, hbe, -⟩
        · rw [hbe] at hsome
          simp at hsome
        · rw [hbe] at hsome
          simp at hsome
        · rw [hbe] at hsome
          have hcc : c₀ = c := by simpa using hsome
          subst hcc
          exact (ih e.id dir vs₂ (d + 1) (some aid) c₀ _ hbe).1 u hsub'
    · intro p hp
      cases hp with
      | leaf hleaf =>
        simp only [List.length_singleton]
        omega
      | cons hc hcp =>
        rename_i c p'
        rw [hch] at hc
        obtain ⟨e, he, vs₂, hsub₂, hsome⟩ := foldChildren_mem _ hb _ _ _ hc
        rcases hb e.id vs₂ with hbe | hbe | ⟨c₀, hbe, -⟩
        · rw [hbe] at hsome
          simp at hsome
        · rw [hbe] at hsome
          simp at hsome
        · rw [hbe] at hsome
          have hcc : c₀ = c := by simpa using hsome
          subst hcc
          have hrec := (ih e.id dir vs₂ (d + 1) (some aid) c₀ _ hbe).2 p' hcp
          simp only [List.length_cons]
          omega

/-- Every node of a built tree keeps, in first-encountered order, a
subsequence of the first `maxChildrenPerNode` aggregated counterparties. -/
theorem children_sublist_inv (cfg : TreeConfig) (accs : List Account)
    (txs : List Transaction) :
    ∀ (fuel : Nat) (aid : String) (dir : Direction) (vs : List String)
      (d : Nat) (pid : Option String) (t : TreeNode) (w : List String),
    buildDirectionalTree cfg accs txs fuel aid dir vs d pid = (some t, w) →
    ∀ u, Subnode t u → (u.children.map TreeNode.id).Sublist
      (((aggregateEdges txs dir u.id).take cfg.maxChildrenPerNode).map AggEntry.id) := by
  intro fuel
  induction fuel with
  | zero =>
    intro aid dir vs d pid t w h
    rw [buildDirectionalTree_zero] at h
    simp at h
  | succ f ih =>
    intro aid dir vs d pid t w h
    obtain ⟨hnv, hd, hid, hch⟩ := node_some_inv cfg accs txs f aid dir vs d pid t w h
    have hb := fun a2 vs2 => nodeVisited_char3 cfg accs txs f a2 dir vs2 (d + 1) aid
    intro u hsub
    cases hsub with
    | refl =>
      rw [hch, hid]
      exact foldChildren_sublist_ids _ hb _ _
    | child hc hsub' =>
      rename_i c
      rw [hch] at hc
      obtain ⟨e, he, vs₂, hsub₂, hsome⟩ := foldChildren_mem _ hb _ _ _ hc
      rcases hb e.id vs₂ with hbe | hbe | ⟨c₀, hbe, -⟩
      · rw [hbe] at hsome
        simp at hsome
      · rw [hbe] at hsome
        simp at hsome
      · rw [hbe] at hsome
        have hcc : c₀ = c := by simpa using hsome
        subst hcc
        exact ih e.id dir vs₂ (d + 1) (some aid) c₀ _ hbe u hsub'

/-- C4: in any directional tree produced by the builder, no account id
occurs twice on any single root-to-leaf path. -/
theorem directional_tree_paths_nodup (cfg : TreeConfig) (accs : List Account)
    (txs : List Transaction) (r : String) (dir : Direction) (t : TreeNode)
    (h : buildDirectionalTreeTop cfg accs txs r dir = some t) :
    ∀ p, IsLeafPath t p → p.Nodup := by
  intro p hp
  unfold buildDirectionalTreeTop at h
  rcases hE : buildDirectionalTree cfg accs txs (treeFuel cfg) r dir [] 0 none
    with ⟨o, v⟩
  rw [hE] at h
  simp only at h
  subst h
  exact (path_nodup_inv cfg accs txs (treeFuel cfg) r dir [] 0 none t v hE p hp).1

theorem c2TreeB_mem : c2TreeB ∈ c2sampleTree.children := by
  rw [show c2sampleTree.children =
    [c2sampleTree.children.getD 0 defaultTreeNode, c2TreeB] from rfl]
  exact List.Mem.tail _ (List.Mem.head _)

theorem c2PathRB : IsLeafPath c2sampleTree ["R", "B"] := by
  have h2 : IsLeafPath c2TreeB [c2TreeB.id] := IsLeafPath.leaf rfl
  exact IsLeafPath.cons c2TreeB_mem h2

theorem directional_tree_paths_nodup_witness :
    buildDirectionalTreeTop config [] c2txs "R" Direction.out = some c2sampleTree ∧
    IsLeafPath c2sampleTree ["R", "B"] ∧ (["R", "B"] : List String).Nodup :=
  ⟨rfl, c2PathRB,
    directional_tree_paths_nodup config [] c2txs "R" Direction.out c2sampleTree rfl
      ["R", "B"] c2PathRB⟩

/-- C5: every node of a directional tree has at most `maxChildrenPerNode`
children, and no root-to-leaf path has more than `maxDepth` edges (that
is, more than `maxDepth + 1` nodes). -/
theorem directional_tree_bounds (cfg : TreeConfig) (accs : List Account)
    (txs : List Transaction) (r : String) (dir : Direction) (t : TreeNode)
    (h : buildDirectionalTreeTop cfg accs txs r dir = some t) :
    (∀ u, Subnode t u → u.children.length ≤ cfg.maxChildrenPerNode) ∧
    (∀ p, IsLeafPath t p → p.length ≤ cfg.maxDepth + 1) := by
  unfold buildDirectionalTreeTop at h
  rcases hE : buildDirectionalTree cfg accs txs (treeFuel cfg) r dir [] 0 none
    with ⟨o, v⟩
  rw [hE] at h
  simp only at h
  subst h
  have hres := bounds_inv cfg accs txs (treeFuel cfg) r dir [] 0 none t v hE
  refine ⟨hres.1, fun p hp => ?_⟩
  have := hres.2 p hp
  omega

theorem directional_tree_bounds_witness :
    buildDirectionalTreeTop config [] c2txs "R" Direction.out = some c2sampleTree ∧
    (Subnode c2sampleTree c2sampleTree ∧
      c2sampleTree.children.length ≤ config.maxChildrenPerNode) ∧
    (IsLeafPath c2sampleTree ["R", "B"] ∧
      (["R", "B"] : List String).length ≤ config.maxDepth + 1) := by
  refine ⟨rfl, ⟨Subnode.refl _, ?_⟩, ⟨c2PathRB, ?_⟩⟩
  · exact (directional_tree_bounds config [] c2txs "R" Direction.out c2sampleTree
      rfl).1 c2sampleTree (Subnode.refl _)
  · exact (directional_tree_bounds config [] c2txs "R" Direction.out c2sampleTree
      rfl).2 ["R", "B"] c2PathRB

/-- C1 (amended): at every node expansion the kept children are, in
first-encountered order, a subsequence of the first `maxChildrenPerNode`
aggregated counterparties — no ranking by aggregate value takes place, so
a discarded counterparty may outrank a kept child. -/
theorem children_initial_segment (cfg : TreeConfig) (accs : List Account)
    (txs : List Transaction) (r : String) (dir : Direction) (t : TreeNode)
    (h : buildDirectionalTreeTop cfg accs txs r dir = some t) :
    ∀ u, Subnode t u → (u.children.map TreeNode.id).Sublist
      (((aggregateEdges txs dir u.id).take cfg.maxChildrenPerNode).map AggEntry.id) := by
  unfold buildDirectionalTreeTop at h
  rcases hE : buildDirectionalTree cfg accs txs (treeFuel cfg) r dir [] 0 none
    with ⟨o, v⟩
  rw [hE] at h
  simp only at h
  subst h
  exact children_sublist_inv cfg accs txs (treeFuel cfg) r dir [] 0 none t v hE

theorem children_initial_segment_witness :
    buildDirectionalTreeTop config [] c1txs "R" Direction.out = some c1sampleTree ∧
    Subnode c1sampleTree c1sampleTree ∧
    ((c1sampleTree.children.map TreeNode.id).Sublist
      (((aggregateEdges c1txs Direction.out c1sampleTree.id).take
        config.maxChildrenPerNode).map AggEntry.id)) :=
  ⟨rfl, Subnode.refl _,
    children_initial_segment config [] c1txs "R" Direction.out c1sampleTree rfl
      c1sampleTree (Subnode.refl _)⟩

/-- C2 (amended): for an expanding node whose account id is non-empty
(every counterparty id is, since the aggregation's truthiness guard skips
empty-string counterparties; only a root account literally named the empty
string is excepted, where a pruned child can also add its id), the visited
set threaded through the children fold comes out as the incoming path set
extended by exactly the ids of the siblings built so far — each sibling
adds its own id (but none of its descendants' ids) to the set seen by its
later siblings, so an earlier-expanded sibling is excluded from a later
sibling's subtree even though it is not on that subtree's root-to-node
path. -/
theorem sibling_visited_threading (cfg : TreeConfig) (accs : List Account)
    (txs : List Transaction) (dir : Direction) (d : Nat) (pacct : String)
    (f : Nat) (entries : List AggEntry) (vs : List String)
    (hp : pacct ≠ "") :
    (entries.foldl (childStep (fun a2 vs2 =>
        buildDirectionalTree cfg accs txs f a2 dir vs2 d (some pacct)))
      ([], vs)).2 =
      vs ++ ((entries.foldl (childStep (fun a2 vs2 =>
        buildDirectionalTree cfg accs txs f a2 dir vs2 d (some pacct)))
      ([], vs)).1).map TreeNode.id :=
  foldChildren_thread _
    (fun a2 vs2 => nodeVisited_char cfg accs txs f a2 dir vs2 d pacct hp)
    entries vs

theorem sibling_visited_threading_witness :
    ("R" : String) ≠ "" ∧
    ((aggregateEdges c2txs Direction.out "R").foldl
        (childStep (fun a2 vs2 =>
          buildDirectionalTree config [] c2txs 9 a2 Direction.out vs2 1
            (some "R")))
        ([], ["R"])).2 =
      ["R"] ++ (((aggregateEdges c2txs Direction.out "R").foldl
        (childStep (fun a2 vs2 =>
          buildDirectionalTree config [] c2txs 9 a2 Direction.out vs2 1
            (some "R")))
        ([], ["R"])).1).map TreeNode.id :=
  ⟨by decide,
    sibling_visited_threading config [] c2txs Direction.out 1 "R" 9
      (aggregateEdges c2txs Direction.out "R") ["R"] (by decide)⟩
